import Mathlib

/-!
Verification development for the Etsy listing acquisition-and-normalization
pipeline (source files: get_url_seo_geo.py, etsy_url.py, openai_url.py,
extract.py).  Python values loaded from JSON artifacts are modelled by the
inductive `JVal`; machine floats are modelled by exact rationals (ℚ); file
contents are modelled explicitly, and calls into external collaborators
(Firecrawl, OpenAI, nltk, TextBlob, BeautifulSoup) are modelled as explicit
oracle parameters, so every definition is executable.
-/

/-- A Python value as produced by `json.load` (and passed around by the
extraction code): `null` is Python `None`, `num` covers both ints and floats
(modelled exactly by ℚ), `str` is a string as a character list, `arr` a list,
`obj` a dict as an association list with distinct keys. -/
inductive JVal where
  | null
  | bool (b : Bool)
  | num (q : ℚ)
  | str (s : List Char)
  | arr (xs : List JVal)
  | obj (fs : List (String × JVal))

/-- Python truthiness (`bool(v)` / use of a value in an `if` or `and`):
`None`, `False`, `0`, `""`, `[]`, `{}` are falsy, everything else truthy. -/
def truthy : JVal → Bool
  | .null => false
  | .bool b => b
  | .num q => decide (q ≠ 0)
  | .str s => !s.isEmpty
  | .arr l => !l.isEmpty
  | .obj l => !l.isEmpty

/-- Python `a or b` on values (returns `a` when truthy, else `b`). -/
def pyOr (a b : JVal) : JVal := if truthy a then a else b

/-- `dict.get(k, default)`: first binding of `k`, else the default.
(Python dicts have unique keys, so "first" is exact.) -/
def jgetD (j : List (String × JVal)) (k : String) (d : JVal) : JVal :=
  match j.lookup k with
  | some v => v
  | none => d

/-- The helper `g(k, default=None)` of `extract_json`: `j.get(k, None)`. -/
def jget (j : List (String × JVal)) (k : String) : JVal := jgetD j k .null

/-- Characters matched by the character class `[\d.]` of
`re.search(r"[\d.]+", v)` in `parse_price` (ASCII digits and the dot;
non-ASCII Unicode digits, which Python `\d` also accepts, are not modelled). -/
def isPriceChar (c : Char) : Bool := c.isDigit || c = '.'

/-- `re.search(r"[\d.]+", s)`: the first maximal run of digit/dot characters,
or `none` when the string has no such character. -/
def firstRun : List Char → Option (List Char)
  | [] => none
  | c :: cs => if isPriceChar c then some (c :: cs.takeWhile isPriceChar) else firstRun cs

/-- Numeric value of a digit string (most significant first). -/
def digitsVal (ds : List Char) : ℕ := ds.foldl (fun a c => 10 * a + (c.toNat - 48)) 0

/-- Value of a decimal literal split into integer part and fractional part. -/
def ratOfParts (ip fp : List Char) : ℚ :=
  (digitsVal ip : ℚ) + (digitsVal fp : ℚ) / ((10 : ℚ) ^ fp.length)

/-- Python `float(run)` for a nonempty run of digits and dots: succeeds iff the
run has at most one dot and at least one digit (`"1"`, `"1."`, `".5"`);
`float("1.2.3")` and `float(".")` raise `ValueError`, modelled as `none`.
(Values large enough to overflow to `inf` are modelled exactly.) -/
def floatOfRun (run : List Char) : Option ℚ :=
  if run.count '.' ≤ 1 then
    if run.any Char.isDigit then
      some (ratOfParts (run.takeWhile (fun c => c ≠ '.'))
                       ((run.dropWhile (fun c => c ≠ '.')).drop 1))
    else none
  else none

/-- `parse_price` of extract.py: `None` unless the value is a string; else the
first digit/dot run fed to `float`.  The `Except` layer records that
`float(m.group())` can raise an uncaught `ValueError` (e.g. on `"1.2.3"`),
which propagates out of `extract_json`. -/
def parse_price (v : JVal) : Except Unit (Option ℚ) :=
  match v with
  | .str s =>
      match firstRun s with
      | none => .ok none
      | some run =>
          match floatOfRun run with
          | some q => .ok (some q)
          | none => .error ()
  | _ => .ok none

/-- Nearest integer with ties to even, Python's `round` tie rule (the binary
floating-point representation step of CPython's `round` is idealized away:
we round the exact rational). -/
def halfEven (q : ℚ) : ℤ :=
  if q - (q.floor : ℚ) < 1/2 then q.floor
  else if (1 : ℚ)/2 < q - (q.floor : ℚ) then q.floor + 1
  else if q.floor % 2 = 0 then q.floor else q.floor + 1

/-- Python `round(x, 4)` on the idealized rational value. -/
def round4 (q : ℚ) : ℚ := (halfEven (q * 10000) : ℚ) / 10000

/-- Python `str.split()` (no separator): maximal runs of non-whitespace. -/
def splitWsGo : List Char → List Char → List (List Char)
  | [], acc => if acc.isEmpty then [] else [acc.reverse]
  | c :: cs, acc =>
      if c.isWhitespace then
        if acc.isEmpty then splitWsGo cs [] else acc.reverse :: splitWsGo cs []
      else splitWsGo cs (c :: acc)

/-- Python `str.split()` with no arguments. -/
def pySplitWs (s : List Char) : List (List Char) := splitWsGo s []

/-- The double-quote character, kept out of character-literal syntax. -/
def quoteCh : Char := Char.ofNat 34

/-- The single-quote character. -/
def aposCh : Char := Char.ofNat 39

/-- Opening curly brace character. -/
def braceL : Char := Char.ofNat 123

/-- Closing curly brace character. -/
def braceR : Char := Char.ofNat 125

/-- Minimal JSON string escaping used by `json.dumps` (quote and backslash;
control-character escapes are not modelled, `ensure_ascii=False` passes
non-ASCII characters through unescaped). -/
def escJsonStr (s : List Char) : List Char :=
  s.flatMap (fun c => if c = quoteCh || c = '\\' then ['\\', c] else [c])

/-- Join characters lists with a separator. -/
def joinSep (sep : List Char) : List (List Char) → List Char
  | [] => []
  | [x] => x
  | x :: y :: xs => x ++ sep ++ joinSep sep (y :: xs)

/-- Decimal digits of an integer (used by the `json.dumps` model). -/
def intLit (n : ℤ) : List Char :=
  if n < 0 then '-' :: Nat.toDigits 10 n.natAbs else Nat.toDigits 10 n.natAbs

/-- Textual form of a JSON number.  Integral values are rendered exactly;
for non-integral floats Python prints a shortest binary-float repr, which has
no exact rational counterpart, so a `num/den` fallback stands in (no claim
examined here depends on this rendering). -/
def numLit (q : ℚ) : List Char :=
  if q.den = 1 then intLit q.num else intLit q.num ++ '/' :: Nat.toDigits 10 q.den

/-- `json.dumps(v, ensure_ascii=False)`, fuelled for structural recursion over
the nested `JVal`; `json_dumps` below always supplies enough fuel. -/
def json_dumpsF : ℕ → JVal → List Char
  | _, .null => "null".toList
  | _, .bool true => "true".toList
  | _, .bool false => "false".toList
  | _, .num q => numLit q
  | _, .str s => quoteCh :: escJsonStr s ++ [quoteCh]
  | 0, .arr _ => []
  | n + 1, .arr xs => '[' :: joinSep ", ".toList (xs.map (json_dumpsF n)) ++ [']']
  | 0, .obj _ => []
  | n + 1, .obj fs =>
      braceL :: joinSep ", ".toList
        (fs.map (fun kv =>
          quoteCh :: escJsonStr kv.1.toList ++ quoteCh :: ':' :: ' ' :: json_dumpsF n kv.2))
        ++ [braceR]

mutual

/-- Structural height of a `JVal`, the fuel bound for `json_dumpsF`. -/
def jheight : JVal → ℕ
  | .arr xs => 1 + jheightL xs
  | .obj fs => 1 + jheightO fs
  | _ => 1

/-- Height of a list of values. -/
def jheightL : List JVal → ℕ
  | [] => 0
  | v :: vs => max (jheight v) (jheightL vs)

/-- Height of an association list of values. -/
def jheightO : List (String × JVal) → ℕ
  | [] => 0
  | kv :: fs => max (jheight kv.2) (jheightO fs)

end

/-- `json.dumps(v, ensure_ascii=False)` as used on `paymentMethods`; the
height of the value always provides enough fuel. -/
def json_dumps (v : JVal) : List Char := json_dumpsF (jheight v) v

/-- One flat record of the extraction pipeline: the join keys
(`query_id`, `channel`, `rank`) that every extractor emits unconditionally,
plus the per-format derived fields as an association list (an absent field is
an absent list entry). -/
structure Record where
  query_id : String
  channel : String
  rank : ℕ
  fields : List (String × JVal)

/-- Join key of a record. -/
def keyOf (r : Record) : String × String × ℕ := (r.query_id, r.channel, r.rank)

/-- Looks a derived field up in an extractor result; `none` both when the
extraction raised and when the field is absent from the record. -/
def recLookup (k : String) : Except Unit Record → Option JVal
  | .ok r => r.fields.lookup k
  | .error _ => none

/-- `extract_json` of extract.py.  The artifact argument is the result of
`open` + `json.load`: `none` when the file is missing or fails to parse (the
bare `except: return out` branch), `some j` otherwise.  `j.get` on a
non-dict JSON document raises `AttributeError` (uncaught), and
`float` inside `parse_price` can raise `ValueError` (uncaught): both are the
`.error` outcome.  Otherwise every field of the `out.update({...})` call is
produced, in source order. -/
def extract_json (qid ch : String) (rk : ℕ) (artifact : Option JVal) :
    Except Unit Record :=
  match artifact with
  | none => .ok ⟨qid, ch, rk, []⟩
  | some (.obj j) =>
      match parse_price (jget j "price") with
      | .error e => .error e
      | .ok price =>
      match parse_price (jget j "originalPrice") with
      | .error e => .error e
      | .ok original =>
      let discount : ℚ :=
        match original, price with
        | some o, some p => if o ≠ 0 ∧ p ≠ 0 ∧ p < o then round4 ((o - p) / o) else 0
        | _, _ => 0
      let imgs : List JVal :=
        match pyOr (jget j "images") (.arr []) with
        | .arr l => l
        | _ => []
      let payment_methods : List JVal :=
        match pyOr (jget j "paymentMethods") (.arr []) with
        | .arr l => l
        | _ => []
      let faq_items : List JVal :=
        match pyOr (jget j "faq_items") (.arr []) with
        | .arr l => l
        | _ => []
      let description_text : List Char :=
        match pyOr (jget j "description_text") (.str []) with
        | .str s => s
        | _ => []
      .ok ⟨qid, ch, rk,
        [("title", pyOr (jget j "title") .null),
         ("price", match price with | some p => .num p | none => .null),
         ("originalPrice", match original with | some o => .num o | none => .null),
         ("discount", .num discount),
         ("rating", jget j "rating"),
         ("reviewsCount", jget j "reviewsCount"),
         ("bestseller", .bool (truthy (jget j "bestseller"))),
         ("starSeller", .bool (truthy (jget j "starSeller"))),
         ("shop", jget j "shop"),
         ("delivery", jget j "delivery"),
         ("shopPolicies", .str (if truthy (jget j "shopPolicies") then "yes".toList else "no".toList)),
         ("purchaseProtection", .str (if truthy (jget j "purchaseProtection") then "yes".toList else "no".toList)),
         ("return_policy_text", pyOr (jgetD j "return_policy_text" (.str [])) (.str [])),
         ("paymentMethods", .str (json_dumps (.arr payment_methods))),
         ("paymentMethods_count", .num payment_methods.length),
         ("number_of_images", .num imgs.length),
         ("first_image_url",
            match imgs with
            | .obj f0 :: _ => jget f0 "url"
            | _ => .null),
         ("alt_text_available",
            .bool (imgs.any (fun img =>
              match img with
              | .obj f => truthy (jget f "alt_text")
              | _ => false))),
         ("description_text", .str description_text),
         ("description_word_count", .num (pySplitWs description_text).length),
         ("description_char_count", .num description_text.length),
         ("number_of_faq_items", .num faq_items.length)]⟩
  | some _ => .error ()

/-- Characters kept by `safe_query_name`'s substitution
`re.sub(r"[^a-zA-Z0-9_()（）一-龥-]", "_", ...)`: ASCII letters and
digits, underscore, both ASCII and fullwidth parentheses, the CJK range
U+4E00..U+9FA5, and the hyphen. -/
def allowedQueryChar (c : Char) : Bool :=
  ('a' ≤ c && c ≤ 'z') || ('A' ≤ c && c ≤ 'Z') || ('0' ≤ c && c ≤ '9') ||
  c = '_' || c = '(' || c = ')' ||
  c.toNat = 0xFF08 || c.toNat = 0xFF09 ||
  (0x4E00 ≤ c.toNat && c.toNat ≤ 0x9FA5) || c = '-'

/-- `safe_query_name` of get_url_seo_geo.py: truncate the prompt to 50
characters, then replace every character outside the allow-set with `_`. -/
def safe_query_name (prompt : List Char) : List Char :=
  (prompt.take 50).map (fun c => if allowedQueryChar c then c else '_')

/-- Characters kept by `safe_slug_from_url`'s substitution
`re.sub(r"[^a-zA-Z0-9_-]", "_", ...)`. -/
def allowedSlugChar (c : Char) : Bool :=
  ('a' ≤ c && c ≤ 'z') || ('A' ≤ c && c ≤ 'Z') || ('0' ≤ c && c ≤ '9') ||
  c = '_' || c = '-'

/-- `safe_slug_from_url` of get_url_seo_geo.py (the same expression appears
inline in etsy_url.py and openai_url.py with `max_len` fixed to 80):
truncate the URL to `max_len` characters, then replace every character
outside the allow-set with `_`. -/
def safe_slug_from_url (url : List Char) (max_len : ℕ) : List Char :=
  (url.take max_len).map (fun c => if allowedSlugChar c then c else '_')

/-- Match a literal at the head of the input, returning the rest. -/
def stripLit : List Char → List Char → Option (List Char)
  | [], l => some l
  | _, [] => none
  | a :: ps, b :: ls => if a = b then stripLit ps ls else none

/-- Substring test (Python `needle in hay`). -/
def containsSub (needle : List Char) : List Char → Bool
  | [] => (stripLit needle []).isSome
  | c :: cs => if (stripLit needle (c :: cs)).isSome then true else containsSub needle cs

/-- `list(dict.fromkeys(urls))`: deduplicate keeping the first occurrence of
each element, preserving order.  `seen` accumulates the elements kept so far. -/
def pyDedupGo {α : Type} [DecidableEq α] (seen : List α) : List α → List α
  | [] => []
  | x :: xs => if x ∈ seen then pyDedupGo seen xs else x :: pyDedupGo (x :: seen) xs

/-- `list(dict.fromkeys(l))`. -/
def pyDedup {α : Type} [DecidableEq α] (l : List α) : List α := pyDedupGo [] l

/-- Body characters of the SEO listing pattern
`https://www\.etsy\.com/listing/[0-9]+/[^\s"\'<>]+`. -/
def listingBodyChar (c : Char) : Bool :=
  !(c.isWhitespace || c = quoteCh || c = aposCh || c = '<' || c = '>')

/-- The literal head of the listing pattern. -/
def listingLit : List Char := "https://www.etsy.com/listing/".toList

/-- Try to match the listing regex at the head of the input; on success return
the matched text and the rest of the input.  The digit run and the body run
are greedy, faithfully to the regex (no backtracking can apply: a shorter
digit run would still face a digit, not `/`). -/
def tryListingAt (l : List Char) : Option (List Char × List Char) :=
  match stripLit listingLit l with
  | none => none
  | some r1 =>
      let ds := r1.takeWhile Char.isDigit
      if ds.isEmpty then none
      else
        match r1.drop ds.length with
        | '/' :: r2 =>
            let body := r2.takeWhile listingBodyChar
            if body.isEmpty then none
            else some (listingLit ++ ds ++ '/' :: body, r2.drop body.length)
        | _ => none

/-- `re.findall` scan for the listing pattern: leftmost, non-overlapping.
Fuelled by the input length (each step consumes at least one character). -/
def findAllListingGo : ℕ → List Char → List (List Char)
  | 0, _ => []
  | _, [] => []
  | fuel + 1, c :: cs =>
      match tryListingAt (c :: cs) with
      | some (m, rest) => m :: findAllListingGo fuel rest
      | none => findAllListingGo fuel cs

/-- `re.findall(r'https://www\.etsy\.com/listing/[0-9]+/[^\s"\'<>]+', html)`. -/
def findAllListing (l : List Char) : List (List Char) := findAllListingGo l.length l

/-- Body characters of the GEO URL pattern `https?://[^\s\"'>]+`. -/
def urlBodyChar (c : Char) : Bool :=
  !(c.isWhitespace || c = quoteCh || c = aposCh || c = '>')

/-- Try to match `https?://[^\s\"'>]+` at the head of the input. -/
def tryUrlAt (l : List Char) : Option (List Char × List Char) :=
  match stripLit "http".toList l with
  | none => none
  | some r0 =>
      match r0 with
      | 's' :: r1 =>
          match stripLit "://".toList r1 with
          | none => none
          | some r2 =>
              let body := r2.takeWhile urlBodyChar
              if body.isEmpty then none
              else some ("https://".toList ++ body, r2.drop body.length)
      | _ =>
          match stripLit "://".toList r0 with
          | none => none
          | some r2 =>
              let body := r2.takeWhile urlBodyChar
              if body.isEmpty then none
              else some ("http://".toList ++ body, r2.drop body.length)

/-- `re.findall` scan for the GEO URL pattern, fuelled by the input length. -/
def findAllUrlGo : ℕ → List Char → List (List Char)
  | 0, _ => []
  | _, [] => []
  | fuel + 1, c :: cs =>
      match tryUrlAt (c :: cs) with
      | some (m, rest) => m :: findAllUrlGo fuel rest
      | none => findAllUrlGo fuel cs

/-- `re.findall(r"https?://[^\s\"'>]+", raw_text)`. -/
def findAllUrl (l : List Char) : List (List Char) := findAllUrlGo l.length l

/-- The deterministic Etsy search URL built by `get_seo_urls_from_etsy`:
`https://www.etsy.com/search?q=` + the prompt with spaces replaced by `+`. -/
def search_url_of (prompt : List Char) : List Char :=
  "https://www.etsy.com/search?q=".toList ++
    prompt.map (fun c => if c = ' ' then '+' else c)

/-- `get_seo_urls_from_etsy` of get_url_seo_geo.py.  `scrapeHtml` is the
Firecrawl search-page scrape: `none` when the call raised (the `except`
branch leaves `urls = []`), `some html` with `html = result.html or ""`
otherwise.  Returns the URL list and the search URL. -/
def get_seo_urls_from_etsy (prompt : List Char) (scrapeHtml : Option (List Char))
    (max_urls : ℕ) : List (List Char) × List Char :=
  (match scrapeHtml with
   | none => []
   | some html => (pyDedup (findAllListing html)).take max_urls,
   search_url_of prompt)

/-- `get_geo_urls_from_openai` of get_url_seo_geo.py.  `apiKey` is the global
`OPENAI_API_KEY` read by the guard; `responseText` is the text assembled from
the OpenAI response (`none` when the call raised, leaving `urls = []` and
`raw_text = ""`).  URLs are pattern matches filtered to Etsy listing links,
deduplicated preserving first-seen order, truncated to `max_urls`. -/
def get_geo_urls_from_openai (apiKey : String) (responseText : Option (List Char))
    (max_urls : ℕ) : List (List Char) × List Char :=
  if apiKey = "" then ([], [])
  else
    match responseText with
    | none => ([], [])
    | some raw =>
        ((pyDedup ((findAllUrl raw).filter
            (fun u => containsSub "etsy.com".toList u && containsSub "/listing/".toList u))).take
          max_urls,
         raw)

/-- Quoting mode handed to `to_csv` (`csv.QUOTE_MINIMAL` is the pandas
default; `csv.QUOTE_ALL` quotes every field). -/
inductive CsvQuoting where
  | minimal
  | all
  deriving DecidableEq

/-- The encoding and quoting arguments of one `to_csv` call site (pandas
defaults: encoding `"utf-8"` — no byte-order mark — and minimal quoting). -/
structure CsvWrite where
  encoding : String
  quoting : CsvQuoting
  deriving DecidableEq

/-- `df.to_csv(MASTER_INDEX, index=False)` — extract.py, `build_master_index`
(defaults only). -/
def master_index_write : CsvWrite := ⟨"utf-8", .minimal⟩

/-- `df_json.to_csv(JSON_DATA_FILE, index=False)` — extract.py, `run_phase1`. -/
def json_data_write : CsvWrite := ⟨"utf-8", .minimal⟩

/-- `df_md.to_csv(MD_DATA_FILE, index=False)` — extract.py, `run_phase1`. -/
def md_data_write : CsvWrite := ⟨"utf-8", .minimal⟩

/-- `df_html.to_csv(HTML_DATA_FILE, index=False)` — extract.py, `run_phase1`. -/
def html_data_write : CsvWrite := ⟨"utf-8", .minimal⟩

/-- `df_master.to_csv(MASTER_MERGED, index=False)` — extract.py, `run_phase1`. -/
def master_merged_write : CsvWrite := ⟨"utf-8", .minimal⟩

/-- `df_seo.to_csv(seo_log_path, index=False, encoding="utf-8-sig")` —
get_url_seo_geo.py, `run_crawling` (no `quoting` argument). -/
def seo_summary_write : CsvWrite := ⟨"utf-8-sig", .minimal⟩

/-- `df_geo.to_csv(geo_log_path, index=False, encoding="utf-8-sig")` —
get_url_seo_geo.py, `run_crawling` (no `quoting` argument). -/
def geo_summary_write : CsvWrite := ⟨"utf-8-sig", .minimal⟩

/-- `df_out.to_csv(OUTPUT_FILE, index=False, encoding="utf-8-sig",
quoting=csv.QUOTE_ALL)` — etsy_url.py, `main`. -/
def etsy_summary_write : CsvWrite := ⟨"utf-8-sig", .all⟩

/-- `df_out.to_csv(OUTPUT_FILE, index=False, encoding="utf-8-sig",
quoting=csv.QUOTE_ALL)` — openai_url.py, `main`. -/
def openai_summary_write : CsvWrite := ⟨"utf-8-sig", .all⟩

/-- The write configuration emits a UTF-8 byte-order mark. -/
def hasBom (w : CsvWrite) : Bool := w.encoding = "utf-8-sig"

/-- The write configuration quotes every field. -/
def quotesAllFields (w : CsvWrite) : Bool := w.quoting = .all

/-- The CSV files named by the claim: the two per-channel crawl summaries of
get_url_seo_geo.py and the five extraction outputs of extract.py. -/
def pipelineCsvWrites : List CsvWrite :=
  [seo_summary_write, geo_summary_write,
   master_index_write, json_data_write, md_data_write, html_data_write,
   master_merged_write]

/-- Global constants of get_url_seo_geo.py (etsy_url.py and openai_url.py use
the same values: `MAX_RETRIES = 3`, `RETRY_DELAY = 3`, `TIMEOUT = 300000`). -/
def MAX_RETRIES : ℕ := 3

/-- `RETRY_DELAY = 3` seconds. -/
def RETRY_DELAY : ℕ := 3

/-- `TIMEOUT = 300000` milliseconds (the Firecrawl base timeout). -/
def TIMEOUT : ℕ := 300000

/-- `MAX_LISTINGS_PER_QUERY = 10`. -/
def MAX_LISTINGS_PER_QUERY : ℕ := 10

/-- The hardcoded module-level `FIRECRAWL_API_KEY = ""` of
get_url_seo_geo.py. -/
def FIRECRAWL_API_KEY : String := ""

/-- The hardcoded module-level `OPENAI_API_KEY = ""` of get_url_seo_geo.py. -/
def OPENAI_API_KEY : String := ""

/-- The module-level guard of get_url_seo_geo.py:
`if not FIRECRAWL_API_KEY: raise ValueError(...)`.  It runs at import time,
before any function body and before any network activity. -/
def moduleInit : Except String Unit :=
  if FIRECRAWL_API_KEY = "" then .error "❌ 请在环境变量中设置 FIRECRAWL_API_KEY"
  else .ok ()

/-- The document returned by one successful `firecrawl.scrape` call: the three
requested formats, each possibly `None`. -/
structure ScrapeDoc where
  markdown : Option (List Char)
  html : Option (List Char)
  json : Option JVal

/-- Outcome of one `firecrawl.scrape` call: a returned document, or an
exception (transport failure, backend error, timeout). -/
inductive ScrapeOutcome where
  | ok (d : ScrapeDoc)
  | exn

/-- How one loop iteration of `fetch_with_firecrawl` ended. -/
inductive AttemptKind where
  | success
  | softBlock
  | hardFail
  deriving DecidableEq

/-- Observable log of one attempt: its 1-based number, the timeout passed to
`firecrawl.scrape`, how it ended, and the `time.sleep` delay performed after
it (none for the terminal success). -/
structure AttemptLog where
  attempt : ℕ
  timeoutUsed : ℕ
  kind : AttemptKind
  delayAfter : Option ℚ

/-- One artifact file written by the success branch. -/
inductive FileKind where
  | md
  | html
  | json
  deriving DecidableEq

/-- Result of `fetch_with_firecrawl` for one URL: the attempt trace, the
artifact files written (in write order), and whether a success dict (rather
than the `status: "fail"` dict) was returned. -/
structure FetchResult where
  logs : List AttemptLog
  writes : List FileKind
  success : Bool

/-- The anti-automation marker probed by
`if result.html and "Please enable JS" in result.html`. -/
def softBlockMarker : List Char := "Please enable JS".toList

/-- The soft-block test of `fetch_with_firecrawl` (Python truthiness of
`result.html`, then substring containment). -/
def softBlock (d : ScrapeDoc) : Bool :=
  match d.html with
  | none => false
  | some h => !h.isEmpty && containsSub softBlockMarker h

/-- The retry loop of `fetch_with_firecrawl` (get_url_seo_geo.py lines
206-267; etsy_url.py lines 40-91 and openai_url.py lines 82-143 are the same
controller with different jitter ranges, which enter only through the draw
oracles).  `env attempt` is the outcome of the scrape issued on that attempt;
`softD` and `hardD` are the `random.uniform` draws used for the soft-block
delay and the hard-failure jitter.  `fuel` counts the remaining loop
iterations, `t` the current timeout.  A soft block sleeps and retries without
touching the timeout; an exception sleeps `RETRY_DELAY * attempt + jitter`
and sets `timeout = int(timeout * 1.5)`; a clean document writes the three
artifacts and returns success. -/
def fetchGo (env : ℕ → ScrapeOutcome) (softD hardD : ℕ → ℚ) :
    ℕ → ℕ → ℕ → FetchResult
  | _, 0, _ => ⟨[], [], false⟩
  | attempt, fuel + 1, t =>
      match env attempt with
      | .ok d =>
          if softBlock d then
            let r := fetchGo env softD hardD (attempt + 1) fuel t
            ⟨⟨attempt, t, .softBlock, some (softD attempt)⟩ :: r.logs, r.writes, r.success⟩
          else
            ⟨[⟨attempt, t, .success, none⟩], [.md, .html, .json], true⟩
      | .exn =>
          let r := fetchGo env softD hardD (attempt + 1) fuel (t * 3 / 2)
          ⟨⟨attempt, t, .hardFail,
            some ((RETRY_DELAY : ℚ) * (attempt : ℚ) + hardD attempt)⟩ :: r.logs,
           r.writes, r.success⟩

/-- `fetch_with_firecrawl`: at most `MAX_RETRIES` attempts starting from
attempt 1 with the base `TIMEOUT`. -/
def fetch_with_firecrawl (env : ℕ → ScrapeOutcome) (softD hardD : ℕ → ℚ) :
    FetchResult :=
  fetchGo env softD hardD 1 MAX_RETRIES TIMEOUT

/-- External inputs of one `run_crawling` run, as oracles: the prompt list
produced by `load_prompts_from_excel` (already `[]` when the Excel file is
missing), the Firecrawl search-page scrape per prompt, the OpenAI response
text per prompt, and the scrape outcome / delay draws per prompt, rank and
attempt. -/
structure CrawlWorld where
  prompts : List String
  seoHtml : ℕ → Option (List Char)
  geoText : ℕ → Option (List Char)
  fetchEnv : ℕ → ℕ → ℕ → ScrapeOutcome
  softDraw : ℕ → ℕ → ℕ → ℚ
  hardDraw : ℕ → ℕ → ℕ → ℚ

/-- Network calls made by the orchestrator. -/
inductive NetEvent where
  | seoSearch
  | geoSearch
  | scrapeUrl
  deriving DecidableEq

/-- Observable events of a `run_crawling` run: the start of each query loop
iteration, each outbound network call, and each per-URL log row appended to
`seo_logs` / `geo_logs` (with its success flag). -/
inductive RunEvent where
  | promptStart (idx : ℕ)
  | net (e : NetEvent)
  | logRow (channel : String) (success : Bool)
  deriving DecidableEq

/-- The body of `run_crawling`'s loop for one prompt (index `i`, 1-based as in
`enumerate(prompts, 1)`): the SEO discovery scrape, then one fetch per
resolved SEO URL (the `rank > MAX_LISTINGS_PER_QUERY` break is modelled by
`take`, and cannot fire since the resolver already truncates); then the GEO
side, whose OpenAI call happens only when `OPENAI_API_KEY` is set (the
resolver's guard returns `([], "")` without network otherwise).  An empty URL
list skips that channel for this query; each fetch appends one log row
whatever its outcome. -/
def promptEvents (w : CrawlWorld) (i : ℕ) (prompt : String) : List RunEvent :=
  let seoUrls := (get_seo_urls_from_etsy prompt.toList (w.seoHtml i) MAX_LISTINGS_PER_QUERY).1
  let seoPart :=
    RunEvent.net .seoSearch ::
    (if seoUrls.isEmpty then []
     else ((seoUrls.take MAX_LISTINGS_PER_QUERY).enum).flatMap (fun ur =>
       let rk := ur.1 + 1
       let res := fetch_with_firecrawl (w.fetchEnv i rk) (w.softDraw i rk) (w.hardDraw i rk)
       [RunEvent.net .scrapeUrl, RunEvent.logRow "SEO" res.success]))
  let geoUrls := (get_geo_urls_from_openai OPENAI_API_KEY (w.geoText i) MAX_LISTINGS_PER_QUERY).1
  let geoNet : List RunEvent :=
    if OPENAI_API_KEY = "" then [] else [RunEvent.net .geoSearch]
  let geoPart :=
    geoNet ++
    (if geoUrls.isEmpty then []
     else ((geoUrls.take MAX_LISTINGS_PER_QUERY).enum).flatMap (fun ur =>
       -- the GEO fetches draw from oracle slots offset by 100 so that the two
       -- channels' scrape outcomes are independent inputs, as they are at runtime
       let rk := 100 + ur.1 + 1
       let res := fetch_with_firecrawl (w.fetchEnv i rk) (w.softDraw i rk) (w.hardDraw i rk)
       [RunEvent.net .scrapeUrl, RunEvent.logRow "GEO" res.success]))
  seoPart ++ geoPart

/-- The prompt loop of `run_crawling`, carrying the 1-based index. -/
def runPrompts (w : CrawlWorld) : ℕ → List String → List RunEvent
  | _, [] => []
  | i, p :: ps => RunEvent.promptStart i :: promptEvents w i p ++ runPrompts w (i + 1) ps

/-- `run_crawling` of get_url_seo_geo.py, as its event trace.  `if not
prompts: return` ends the run before the loop (and before any network
activity); otherwise every prompt is processed, faults notwithstanding. -/
def run_crawling (w : CrawlWorld) : List RunEvent :=
  if w.prompts.isEmpty then [] else runPrompts w 1 w.prompts

/-- Script startup: the module-level credential guard runs first (at import),
then `run_crawling()`. -/
def scriptMain (w : CrawlWorld) : Except String (List RunEvent) :=
  match moduleInit with
  | .error e => .error e
  | .ok _ => .ok (run_crawling w)

/-- Content of one file in an artifact-store directory, via the views the
extractors use: `asJson` is the `json.load` result (`none` when the text is
not valid JSON), `asText` the raw text read by the markdown and HTML
extractors (BeautifulSoup parses any text, so no failure view is needed). -/
structure Content where
  asJson : Option JVal
  asText : List Char

/-- One channel base directory (`outputs_etsy_final` / `outputs_GEO_final`)
as seen by `os.listdir`: entries are a name plus `some files` for a subdirectory
(its files by name) or `none` for a non-directory entry, which
`os.path.isdir` filters out. -/
def ChanState := List (String × Option (List (String × Content)))

/-- The artifact store on disk: each channel's base directory, or `none` when
`os.path.exists(base_dir)` fails and the channel is skipped. -/
structure DirState where
  seo : Option ChanState
  geo : Option ChanState

/-- One row of the master index (the artifact paths of the source row are
determined by `query_id`, `channel` and `url_slug`, so they are not stored
separately). -/
structure IndexEntry where
  query_id : String
  channel : String
  rank : ℕ
  url_slug : String
  deriving DecidableEq

/-- Key of an index entry, matching `keyOf` on records. -/
def entryKey (e : IndexEntry) : String × String × ℕ := (e.query_id, e.channel, e.rank)

/-- The six suffixes a filename may have after the slug under the master-index
regex `(.+?)(_full)?\.(md|html|json)$` (greedy optional `_full`, anchored
extension). -/
def slugSuffixes : List (List Char) :=
  ["_full.md".toList, "_full.html".toList, "_full.json".toList,
   ".md".toList, ".html".toList, ".json".toList]

/-- The lazy-group regex match: the shortest nonempty prefix whose remainder
is one of the six suffixes. `pre` is the (reversed-free) prefix consumed so
far. -/
def slugOfGo (pre : List Char) : List Char → Option (List Char)
  | [] => none
  | c :: rest =>
      let pre2 := pre ++ [c]
      if rest ∈ slugSuffixes then some pre2 else slugOfGo pre2 rest

/-- `re.match(r"(.+?)(_full)?\.(md|html|json)$", f)`: the captured slug
(group 1), or `none` when the filename does not match. -/
def slugOf (f : String) : Option String := (slugOfGo [] f.toList).map String.mk

/-- Lexicographic (code-point) string order, Python's `<` on `str`. -/
def lexLe : List Char → List Char → Bool
  | [], _ => true
  | _ :: _, [] => false
  | a :: as, b :: bs =>
      if a.toNat < b.toNat then true
      else if b.toNat < a.toNat then false
      else lexLe as bs

/-- `lexLe` on strings. -/
def strLeB (a b : String) : Bool := lexLe a.toList b.toList

/-- Stable insertion into a sorted list. -/
def insertSorted (x : String) : List String → List String
  | [] => [x]
  | y :: ys => if strLeB x y then x :: y :: ys else y :: insertSorted x ys

/-- Insertion sort; on the distinct slugs it coincides with Python's
`sorted`. -/
def insSort : List String → List String
  | [] => []
  | x :: xs => insertSorted x (insSort xs)

/-- `sorted(slugs)` for `slugs` the set of regex captures over a directory's
filenames (`set` modelled by first-seen dedup; `sorted` on the resulting
distinct elements is order-insensitive). -/
def slugsOfFiles (files : List (String × Content)) : List String :=
  insSort (pyDedup (files.filterMap (fun fc => slugOf fc.1)))

/-- Index rows of one channel: for each subdirectory, the sorted slug groups
ranked from 1 (`enumerate(sorted(slugs), 1)`). -/
def chanRows (channel : String) : Option ChanState → List IndexEntry
  | none => []
  | some entries =>
      entries.flatMap (fun qd =>
        match qd.2 with
        | none => []
        | some files =>
            (slugsOfFiles files).enum.map (fun is =>
              ⟨qd.1, channel, is.1 + 1, is.2⟩))

/-- `build_master_index` of extract.py: scan the SEO then the GEO tree. -/
def build_master_index (st : DirState) : List IndexEntry :=
  chanRows "SEO" st.seo ++ chanRows "GEO" st.geo

/-- `open(os.path.join(q_dir, fname))`: resolve the channel base directory,
the query subdirectory, then the file. -/
def readFile (st : DirState) (channel qid fname : String) : Option Content :=
  (match (if channel = "SEO" then st.seo else st.geo) with
   | none => none
   | some entries =>
       match entries.lookup qid with
       | none => none
       | some none => none
       | some (some files) => files.lookup fname)

/-- The JSON artifact of an index entry as `extract_json` receives it:
`none` when the file is missing or `json.load` fails. -/
def readJson (st : DirState) (e : IndexEntry) : Option JVal :=
  match readFile st e.channel e.query_id (e.url_slug ++ "_full.json") with
  | none => none
  | some c => c.asJson

/-- The markdown artifact text (`none` when the file is missing). -/
def readMd (st : DirState) (e : IndexEntry) : Option (List Char) :=
  (readFile st e.channel e.query_id (e.url_slug ++ ".md")).map Content.asText

/-- The HTML artifact text (`none` when the file is missing). -/
def readHtml (st : DirState) (e : IndexEntry) : Option (List Char) :=
  (readFile st e.channel e.query_id (e.url_slug ++ ".html")).map Content.asText

/-- `extract_md` of extract.py, keys-and-structure level: a missing file
yields the keys-only record; otherwise the derived fields are computed by the
oracle `mdDerive` (the statistics are built on `re`, `nltk.sent_tokenize` and
`TextBlob` and are total; no claim examined here depends on them, so their
values are abstracted while the record structure is translated). -/
def extract_md (mdDerive : List Char → List (String × JVal)) (qid ch : String)
    (rk : ℕ) (artifact : Option (List Char)) : Record :=
  match artifact with
  | none => ⟨qid, ch, rk, []⟩
  | some text => ⟨qid, ch, rk, mdDerive text⟩

/-- `extract_html` of extract.py, keys-and-structure level: a missing file
yields the keys-only record; otherwise the fields come from the oracle
`htmlDerive` over the raw text (the BeautifulSoup pipeline), whose `Except`
layer records that `float(m.group())` on the price element's first digit/dot
run can raise an uncaught `ValueError`, exactly as in `extract_json`. -/
def extract_html (htmlDerive : List Char → Except Unit (List (String × JVal)))
    (qid ch : String) (rk : ℕ) (artifact : Option (List Char)) :
    Except Unit Record :=
  match artifact with
  | none => .ok ⟨qid, ch, rk, []⟩
  | some text =>
      match htmlDerive text with
      | .error e => .error e
      | .ok fs => .ok ⟨qid, ch, rk, fs⟩

/-- The list comprehension `[f(r) for _, r in df_index.iterrows()]` under a
fallible `f`: an exception in any element aborts the whole run. -/
def mapME {α β : Type} (f : α → Except Unit β) : List α → Except Unit (List β)
  | [] => .ok []
  | a :: as =>
      match f a with
      | .error e => .error e
      | .ok b =>
          match mapME f as with
          | .error e => .error e
          | .ok bs => .ok (b :: bs)

/-- `left.merge(right, on=keys, how="left")` of pandas, at key level: each
left row is kept; it is joined with every right row of equal key, or kept
bare when the right has no such key.  Joined rows take the left row's keys. -/
def leftJoin (l r : List Record) : List Record :=
  l.flatMap (fun lr =>
    match r.filter (fun rr => decide (keyOf rr = keyOf lr)) with
    | [] => [lr]
    | ms => ms.map (fun rr => ⟨lr.query_id, lr.channel, lr.rank, lr.fields ++ rr.fields⟩))

/-- `run_phase1` of extract.py: build the master index; if it is empty return
early (`none`); otherwise run the three extractions over the index rows (the
JSON and HTML comprehensions can raise, aborting the run) and left-join them
on (`query_id`, `channel`, `rank`). -/
def run_phase1 (mdDerive : List Char → List (String × JVal))
    (htmlDerive : List Char → Except Unit (List (String × JVal)))
    (st : DirState) : Except Unit (Option (List Record)) :=
  let index := build_master_index st
  if index.isEmpty then .ok none
  else
    match mapME (fun e => extract_json e.query_id e.channel e.rank (readJson st e)) index with
    | .error e => .error e
    | .ok dfJson =>
        let dfMd := index.map (fun e => extract_md mdDerive e.query_id e.channel e.rank (readMd st e))
        match mapME (fun e => extract_html htmlDerive e.query_id e.channel e.rank (readHtml st e)) index with
        | .error e => .error e
        | .ok dfHtml => .ok (some (leftJoin (leftJoin dfJson dfMd) dfHtml))

/-- Key set of a `run_phase1` outcome (`∅` for the empty-index early return
and for an aborted run). -/
def keySetOfRun : Except Unit (Option (List Record)) → Finset (String × String × ℕ)
  | .ok (some l) => (l.map keyOf).toFinset
  | .ok none => ∅
  | .error _ => ∅

/-- Key set of the master index. -/
def indexKeySet (idx : List IndexEntry) : Finset (String × String × ℕ) :=
  (idx.map entryKey).toFinset

theorem safe_query_name_len_le (x : List Char) : (safe_query_name x).length ≤ 50 := by
  simp [safe_query_name]

theorem safe_slug_len_le (x : List Char) (n : ℕ) : (safe_slug_from_url x n).length ≤ n := by
  simp [safe_slug_from_url]

theorem safe_query_name_chars (x : List Char) :
    ∀ c ∈ safe_query_name x, allowedQueryChar c = true := by
  intro c hc
  simp only [safe_query_name] at hc
  rw [List.mem_map] at hc
  obtain ⟨b, _, hb⟩ := hc
  by_cases h : allowedQueryChar b = true
  · rw [if_pos h] at hb; exact hb ▸ h
  · rw [if_neg h] at hb; exact hb ▸ (by decide : allowedQueryChar '_' = true)

theorem safe_slug_chars (x : List Char) (n : ℕ) :
    ∀ c ∈ safe_slug_from_url x n, allowedSlugChar c = true := by
  intro c hc
  simp only [safe_slug_from_url] at hc
  rw [List.mem_map] at hc
  obtain ⟨b, _, hb⟩ := hc
  by_cases h : allowedSlugChar b = true
  · rw [if_pos h] at hb; exact hb ▸ h
  · rw [if_neg h] at hb; exact hb ▸ (by decide : allowedSlugChar '_' = true)

theorem safe_query_name_idem (x : List Char) :
    safe_query_name (safe_query_name x) = safe_query_name x := by
  conv_lhs => rw [safe_query_name.eq_def]
  rw [List.take_of_length_le (safe_query_name_len_le x)]
  simp only [safe_query_name, List.map_map]
  apply List.map_congr_left
  intro a _
  by_cases h : allowedQueryChar a = true
  · simp [Function.comp, h]
  · simp [Function.comp, h]

theorem safe_slug_idem (x : List Char) (n : ℕ) :
    safe_slug_from_url (safe_slug_from_url x n) n = safe_slug_from_url x n := by
  conv_lhs => rw [safe_slug_from_url.eq_def]
  rw [List.take_of_length_le (safe_slug_len_le x n)]
  simp only [safe_slug_from_url, List.map_map]
  apply List.map_congr_left
  intro a _
  by_cases h : allowedSlugChar a = true
  · simp [Function.comp, h]
  · simp [Function.comp, h]

/-- C7: both slug functions are deterministic (they are pure functions of
their input, so repeated application on equal inputs gives equal outputs) and
idempotent — applying either twice equals applying it once — and their output
consists solely of allow-set characters and is truncated to the configured
maximum length (50 for `safe_query_name`, `max_len` — 80 at every call
site — for `safe_slug_from_url`). -/
theorem slug_codec_idempotent :
    ∀ (x : List Char) (n : ℕ),
      safe_query_name (safe_query_name x) = safe_query_name x ∧
      safe_slug_from_url (safe_slug_from_url x n) n = safe_slug_from_url x n ∧
      (safe_query_name x).length ≤ 50 ∧
      (safe_slug_from_url x n).length ≤ n ∧
      (∀ c ∈ safe_query_name x, allowedQueryChar c = true) ∧
      (∀ c ∈ safe_slug_from_url x n, allowedSlugChar c = true) :=
  fun x n =>
    ⟨safe_query_name_idem x, safe_slug_idem x n, safe_query_name_len_le x,
     safe_slug_len_le x n, safe_query_name_chars x, safe_slug_chars x n⟩

theorem pyDedupGo_mem {α : Type} [DecidableEq α] (seen : List α) (l : List α) :
    ∀ x, x ∈ pyDedupGo seen l ↔ x ∈ l ∧ x ∉ seen := by
  induction l generalizing seen with
  | nil => intro x; simp [pyDedupGo]
  | cons a as ih =>
      intro x
      by_cases ha : a ∈ seen
      · simp only [pyDedupGo, if_pos ha, ih seen x, List.mem_cons]
        constructor
        · rintro ⟨h1, h2⟩; exact ⟨Or.inr h1, h2⟩
        · rintro ⟨h1 | h1, h2⟩
          · exact absurd (h1 ▸ ha) h2
          · exact ⟨h1, h2⟩
      · simp only [pyDedupGo, if_neg ha, List.mem_cons, ih (a :: seen) x, List.mem_cons]
        constructor
        · rintro (h | ⟨h1, h2⟩)
          · exact ⟨Or.inl h, h ▸ ha⟩
          · exact ⟨Or.inr h1, fun hx => h2 (Or.inr hx)⟩
        · rintro ⟨h1 | h1, h2⟩
          · exact Or.inl h1
          · by_cases hxa : x = a
            · exact Or.inl hxa
            · exact Or.inr ⟨h1, fun hx => hx.elim hxa h2⟩

theorem pyDedupGo_sublist {α : Type} [DecidableEq α] (seen : List α) (l : List α) :
    (pyDedupGo seen l).Sublist l := by
  induction l generalizing seen with
  | nil => simp [pyDedupGo]
  | cons a as ih =>
      by_cases ha : a ∈ seen
      · simp only [pyDedupGo, if_pos ha]
        exact (ih seen).trans (List.sublist_cons_self a as)
      · simp only [pyDedupGo, if_neg ha]
        exact (ih (a :: seen)).cons₂ a

theorem pyDedupGo_nodup {α : Type} [DecidableEq α] (seen : List α) (l : List α) :
    (pyDedupGo seen l).Nodup := by
  induction l generalizing seen with
  | nil => simp [pyDedupGo]
  | cons a as ih =>
      by_cases ha : a ∈ seen
      · simp only [pyDedupGo, if_pos ha]; exact ih seen
      · simp only [pyDedupGo, if_neg ha]
        refine List.nodup_cons.2 ⟨fun hmem => ?_, ih (a :: seen)⟩
        exact ((pyDedupGo_mem (a :: seen) as a).1 hmem).2 (List.mem_cons_self a seen)

theorem pyDedup_nodup {α : Type} [DecidableEq α] (l : List α) : (pyDedup l).Nodup :=
  pyDedupGo_nodup [] l

theorem pyDedup_sublist {α : Type} [DecidableEq α] (l : List α) : (pyDedup l).Sublist l :=
  pyDedupGo_sublist [] l

theorem pyDedup_mem {α : Type} [DecidableEq α] (l : List α) (x : α) :
    x ∈ pyDedup l ↔ x ∈ l := by
  rw [pyDedup, pyDedupGo_mem]
  simp

/-- C8: for every query and channel (SEO: the Etsy search page's markup; GEO:
the OpenAI response text, any API key), the URL list returned by the resolver
has no duplicate URLs, is a subsequence of the underlying pattern-match list
(so first-seen order is preserved), keeps exactly the distinct matched URLs
before truncation, and has length at most `max_urls`. -/
theorem resolver_distinct_ordered_capped :
    ∀ (prompt : List Char) (scrapeHtml : Option (List Char)) (apiKey : String)
      (responseText : Option (List Char)) (max_urls : ℕ),
      ((get_seo_urls_from_etsy prompt scrapeHtml max_urls).1.Nodup ∧
       (∀ html, scrapeHtml = some html →
         (get_seo_urls_from_etsy prompt scrapeHtml max_urls).1.Sublist (findAllListing html) ∧
         (∀ u, u ∈ pyDedup (findAllListing html) ↔ u ∈ findAllListing html)) ∧
       (get_seo_urls_from_etsy prompt scrapeHtml max_urls).1.length ≤ max_urls) ∧
      ((get_geo_urls_from_openai apiKey responseText max_urls).1.Nodup ∧
       (∀ raw, responseText = some raw →
         (get_geo_urls_from_openai apiKey responseText max_urls).1.Sublist (findAllUrl raw)) ∧
       (get_geo_urls_from_openai apiKey responseText max_urls).1.length ≤ max_urls) := by
  intro prompt scrapeHtml apiKey responseText max_urls
  refine ⟨⟨?_, ?_, ?_⟩, ?_, ?_, ?_⟩
  · cases scrapeHtml with
    | none => simp [get_seo_urls_from_etsy]
    | some html =>
        simp only [get_seo_urls_from_etsy]
        exact (pyDedup_nodup _).sublist (List.take_sublist _ _)
  · intro html hh
    subst hh
    simp only [get_seo_urls_from_etsy]
    exact ⟨(List.take_sublist _ _).trans (pyDedup_sublist _), fun u => pyDedup_mem _ u⟩
  · cases scrapeHtml with
    | none => simp [get_seo_urls_from_etsy]
    | some html => simp only [get_seo_urls_from_etsy]; exact List.length_take_le _ _
  · by_cases hk : apiKey = ""
    · simp [get_geo_urls_from_openai, hk]
    · cases responseText with
      | none => simp [get_geo_urls_from_openai, hk]
      | some raw =>
          simp only [get_geo_urls_from_openai, if_neg hk]
          exact (pyDedup_nodup _).sublist (List.take_sublist _ _)
  · intro raw hr
    subst hr
    by_cases hk : apiKey = ""
    · simp [get_geo_urls_from_openai, hk]
    · simp only [get_geo_urls_from_openai, if_neg hk]
      exact ((List.take_sublist _ _).trans (pyDedup_sublist _)).trans (List.filter_sublist _)
  · by_cases hk : apiKey = ""
    · simp [get_geo_urls_from_openai, hk]
    · cases responseText with
      | none => simp [get_geo_urls_from_openai, hk]
      | some raw =>
          simp only [get_geo_urls_from_openai, if_neg hk]
          exact List.length_take_le _ _

/-- C9 counterexample: it is not the case that every CSV the pipeline
produces is written in UTF-8 with a byte-order mark and with every field
quoted — `master_index.csv` (like the other four extract.py outputs) is
written with pandas defaults (`utf-8`, minimal quoting), and the two crawl
summaries of get_url_seo_geo.py use `utf-8-sig` but keep minimal quoting. -/
theorem csv_output_cx :
    ¬ (∀ w ∈ pipelineCsvWrites, hasBom w = true ∧ quotesAllFields w = true) := by
  intro h
  have := h master_index_write (by simp [pipelineCsvWrites])
  simp [hasBom, master_index_write] at this

/-- C9 amended: of the pipeline's CSV writes, only the summary files of
etsy_url.py and openai_url.py are written in UTF-8 with a byte-order mark and
with every field quoted; the two per-channel crawl summaries of
get_url_seo_geo.py carry the byte-order mark but quote minimally, and the
five extraction outputs of extract.py are written in plain UTF-8 (no
byte-order mark) with minimal quoting. -/
theorem csv_output_amended :
    (hasBom etsy_summary_write = true ∧ quotesAllFields etsy_summary_write = true) ∧
    (hasBom openai_summary_write = true ∧ quotesAllFields openai_summary_write = true) ∧
    (hasBom seo_summary_write = true ∧ quotesAllFields seo_summary_write = false) ∧
    (hasBom geo_summary_write = true ∧ quotesAllFields geo_summary_write = false) ∧
    (hasBom master_index_write = false ∧ quotesAllFields master_index_write = false) ∧
    (hasBom json_data_write = false ∧ quotesAllFields json_data_write = false) ∧
    (hasBom md_data_write = false ∧ quotesAllFields md_data_write = false) ∧
    (hasBom html_data_write = false ∧ quotesAllFields html_data_write = false) ∧
    (hasBom master_merged_write = false ∧ quotesAllFields master_merged_write = false) := by
  refine ⟨⟨?_, ?_⟩, ⟨?_, ?_⟩, ⟨?_, ?_⟩, ⟨?_, ?_⟩, ⟨?_, ?_⟩, ⟨?_, ?_⟩, ⟨?_, ?_⟩, ⟨?_, ?_⟩, ?_, ?_⟩ <;> rfl

/-- C10: for every parseable JSON artifact whose extraction completes, the
`bestseller` and `starSeller` fields are present and are booleans, obtained by
Python-truthiness coercion of the source values; a missing or null source
field yields `False`, and truthiness maps `null` and an explicit `false` to
the same boolean, so downstream consumers cannot distinguish them. -/
theorem extract_json_flags (qid ch : String) (rk : ℕ) (j : List (String × JVal))
    (hok : (extract_json qid ch rk (some (.obj j))).isOk = true) :
    recLookup "bestseller" (extract_json qid ch rk (some (.obj j)))
        = some (.bool (truthy (jget j "bestseller"))) ∧
    recLookup "starSeller" (extract_json qid ch rk (some (.obj j)))
        = some (.bool (truthy (jget j "starSeller"))) ∧
    (jget j "bestseller" = JVal.null →
      recLookup "bestseller" (extract_json qid ch rk (some (.obj j)))
        = some (.bool false)) ∧
    (jget j "starSeller" = JVal.null →
      recLookup "starSeller" (extract_json qid ch rk (some (.obj j)))
        = some (.bool false)) ∧
    truthy JVal.null = truthy (JVal.bool false) := by
  cases hp : parse_price (jget j "price") with
  | error e => simp [extract_json, hp, Except.isOk, Except.toBool] at hok
  | ok price =>
    cases ho : parse_price (jget j "originalPrice") with
    | error e => simp [extract_json, hp, ho, Except.isOk, Except.toBool] at hok
    | ok original =>
      refine ⟨?_, ?_, ?_, ?_, rfl⟩
      · simp [extract_json, hp, ho, recLookup, List.lookup]
      · simp [extract_json, hp, ho, recLookup, List.lookup]
      · intro hnull
        simp [extract_json, hp, ho, recLookup, List.lookup, hnull, truthy]
      · intro hnull
        simp [extract_json, hp, ho, recLookup, List.lookup, hnull, truthy]

/-- C10 witness: a concrete parseable artifact in which `bestseller` is
absent; the extracted flag is the boolean `false`. -/
theorem extract_json_flags_witness :
    recLookup "bestseller"
        (extract_json "q" "SEO" 1 (some (.obj [("starSeller", .bool true)])))
      = some (.bool false) := by
  have h := extract_json_flags "q" "SEO" 1 [("starSeller", .bool true)] (by rfl)
  exact h.2.2.1 (by rfl)

theorem ratOfParts_nonneg (ip fp : List Char) : 0 ≤ ratOfParts ip fp := by
  unfold ratOfParts
  positivity

theorem parse_price_nonneg (v : JVal) (q : ℚ) (h : parse_price v = .ok (some q)) :
    0 ≤ q := by
  cases v with
  | str s =>
      cases hr : firstRun s with
      | none => simp [parse_price, hr] at h
      | some run =>
          cases hf : floatOfRun run with
          | none => simp [parse_price, hr, hf] at h
          | some q' =>
              simp only [parse_price, hr, hf, Except.ok.injEq, Option.some.injEq] at h
              subst h
              unfold floatOfRun at hf
              by_cases h1 : run.count '.' ≤ 1
              · rw [if_pos h1] at hf
                by_cases h2 : run.any Char.isDigit
                · rw [if_pos h2] at hf
                  simp only [Option.some.injEq] at hf
                  exact hf ▸ ratOfParts_nonneg _ _
                · rw [if_neg h2] at hf; cases hf
              · rw [if_neg h1] at hf; cases hf
  | null => simp [parse_price] at h
  | bool b => simp [parse_price] at h
  | num q' => simp [parse_price] at h
  | arr xs => simp [parse_price] at h
  | obj fs => simp [parse_price] at h

/-- C1 counterexample: a parseable JSON artifact with no `price` key — so the
price fails to parse — in which the extracted record's `discount` field is
nevertheless present and equal to the number 0 (the claim requires it to be
absent in this case). -/
theorem extract_json_discount_cx :
    (extract_json "q" "SEO" 1 (some (.obj []))).isOk = true ∧
    recLookup "discount" (extract_json "q" "SEO" 1 (some (.obj [])))
      = some (.num 0) :=
  ⟨rfl, rfl⟩

/-- C1 amended: for every parseable JSON artifact whose extraction completes,
the `discount` field is always present: it equals
`round((originalPrice - price) / originalPrice, 4)` when both price strings
parse and `0 < price < originalPrice`, and the number 0 in every other case —
including when either price fails to parse (absent only when the artifact
itself is missing or unparsable, in which case the keys-only record carries
no `discount` field at all).  A parse failure (`None`) is distinct from the
uncaught `ValueError` a malformed digit run such as `"1.2.3"` raises, which
aborts extraction. -/
theorem lookup_cons_ne (k a : String) (v : JVal) (es : List (String × JVal))
    (h : (k == a) = false) : List.lookup k ((a, v) :: es) = List.lookup k es := by
  simp [List.lookup, h]

theorem lookup_cons_eq (k : String) (v : JVal) (es : List (String × JVal)) :
    List.lookup k ((k, v) :: es) = some v := by
  simp [List.lookup]

theorem extract_json_discount (qid ch : String) (rk : ℕ) (j : List (String × JVal))
    (p? o? : Option ℚ)
    (hp : parse_price (jget j "price") = .ok p?)
    (ho : parse_price (jget j "originalPrice") = .ok o?) :
    recLookup "discount" (extract_json qid ch rk (some (.obj j)))
      = some (.num (match o?, p? with
          | some o, some p => if 0 < p ∧ p < o then round4 ((o - p) / o) else 0
          | _, _ => 0)) ∧
    recLookup "discount" (extract_json qid ch rk none) = none := by
  constructor
  · have hmain : recLookup "discount" (extract_json qid ch rk (some (.obj j)))
        = some (.num (match o?, p? with
            | some o, some p => if o ≠ 0 ∧ p ≠ 0 ∧ p < o then round4 ((o - p) / o) else 0
            | _, _ => 0)) := by
      simp only [extract_json, hp, ho, recLookup]
      rw [lookup_cons_ne _ _ _ _ (by decide), lookup_cons_ne _ _ _ _ (by decide),
          lookup_cons_ne _ _ _ _ (by decide), lookup_cons_eq]
      rcases o? with _ | o <;> rcases p? with _ | p <;> rfl
    rw [hmain]
    cases o? with
    | none => rfl
    | some o =>
        cases p? with
        | none => rfl
        | some p =>
            have hp0 : 0 ≤ p := parse_price_nonneg _ _ hp
            have ho0 : 0 ≤ o := parse_price_nonneg _ _ ho
            have hiff : (o ≠ 0 ∧ p ≠ 0 ∧ p < o) ↔ (0 < p ∧ p < o) := by
              constructor
              · rintro ⟨_, hpne, hlt⟩
                exact ⟨lt_of_le_of_ne hp0 (Ne.symm hpne), hlt⟩
              · rintro ⟨hppos, hlt⟩
                exact ⟨ne_of_gt (lt_trans hppos hlt), ne_of_gt hppos, hlt⟩
            simp only [if_congr hiff rfl rfl]
  · rfl

/-- C1 witness: a concrete artifact with `price = "$5"` and
`originalPrice = "10"`; both parse, `0 < 5 < 10`, and the discount field
holds the rounded ratio. -/
theorem extract_json_discount_witness :
    recLookup "discount"
        (extract_json "q" "SEO" 1
          (some (.obj [("price", .str ('$' :: "5".toList)), ("originalPrice", .str "10".toList)])))
      = some (.num (match some (ratOfParts "10".toList "".toList),
                          some (ratOfParts "5".toList "".toList) with
          | some o, some p => if 0 < p ∧ p < o then round4 ((o - p) / o) else 0
          | _, _ => 0)) :=
  (extract_json_discount "q" "SEO" 1
    [("price", .str ('$' :: "5".toList)), ("originalPrice", .str "10".toList)]
    (some (ratOfParts "5".toList "".toList))
    (some (ratOfParts "10".toList "".toList)) rfl rfl).1

theorem fetchGo_length (env : ℕ → ScrapeOutcome) (sD hD : ℕ → ℚ) :
    ∀ (fuel a t : ℕ), (fetchGo env sD hD a fuel t).logs.length ≤ fuel := by
  intro fuel
  induction fuel with
  | zero => intro a t; simp [fetchGo]
  | succ n ih =>
      intro a t
      cases he : env a with
      | ok d =>
          by_cases hs : softBlock d = true
          · simp only [fetchGo, he, hs, if_true, List.length_cons]
            exact Nat.succ_le_succ (ih (a + 1) t)
          · simp [fetchGo, he, hs]
      | exn =>
          simp only [fetchGo, he, List.length_cons]
          exact Nat.succ_le_succ (ih (a + 1) (t * 3 / 2))

theorem fetchGo_writes (env : ℕ → ScrapeOutcome) (sD hD : ℕ → ℚ) :
    ∀ (fuel a t : ℕ),
      ((fetchGo env sD hD a fuel t).writes = [] ∧ (fetchGo env sD hD a fuel t).success = false) ∨
      ((fetchGo env sD hD a fuel t).writes = [FileKind.md, FileKind.html, FileKind.json] ∧
       (fetchGo env sD hD a fuel t).success = true) := by
  intro fuel
  induction fuel with
  | zero => intro a t; simp [fetchGo]
  | succ n ih =>
      intro a t
      cases he : env a with
      | ok d =>
          by_cases hs : softBlock d = true
          · simp only [fetchGo, he, hs, if_true]
            exact ih (a + 1) t
          · simp [fetchGo, he, hs]
      | exn =>
          simp only [fetchGo, he]
          exact ih (a + 1) (t * 3 / 2)

theorem fetchGo_last_success (env : ℕ → ScrapeOutcome) (sD hD : ℕ → ℚ) :
    ∀ (fuel a t : ℕ), (fetchGo env sD hD a fuel t).success = true →
      ∃ h0 : 0 < (fetchGo env sD hD a fuel t).logs.length,
        ((fetchGo env sD hD a fuel t).logs.getLast (by
          intro hnil
          rw [hnil] at h0
          exact absurd h0 (by simp))).kind = AttemptKind.success := by
  intro fuel
  induction fuel with
  | zero => intro a t h; simp [fetchGo] at h
  | succ n ih =>
      intro a t h
      cases he : env a with
      | ok d =>
          by_cases hs : softBlock d = true
          · rw [fetchGo] at h ⊢
            rw [he] at h ⊢
            simp only [hs, if_true] at h ⊢
            obtain ⟨h0, hlast⟩ := ih (a + 1) t h
            refine ⟨by simp, ?_⟩
            rw [List.getLast_cons (by
              intro hnil
              rw [hnil] at h0
              exact absurd h0 (by simp))]
            exact hlast
          · rw [fetchGo]
            rw [he]
            simp only [hs, if_false, Bool.false_eq_true]
            exact ⟨by simp, by simp⟩
      | exn =>
          rw [fetchGo] at h ⊢
          rw [he] at h ⊢
          obtain ⟨h0, hlast⟩ := ih (a + 1) (t * 3 / 2) h
          refine ⟨by simp, ?_⟩
          rw [List.getLast_cons (by
            intro hnil
            rw [hnil] at h0
            exact absurd h0 (by simp))]
          exact hlast

theorem fetchGo_head (env : ℕ → ScrapeOutcome) (sD hD : ℕ → ℚ) :
    ∀ (fuel a t : ℕ) (e : AttemptLog),
      (fetchGo env sD hD a fuel t).logs.get? 0 = some e →
      e.timeoutUsed = t ∧ e.attempt = a := by
  intro fuel a t e he0
  cases fuel with
  | zero => simp [fetchGo] at he0
  | succ n =>
      cases he : env a with
      | ok d =>
          cases hs : softBlock d with
          | true =>
            simp only [fetchGo, he, hs, if_true, List.get?_cons_zero,
              Option.some.injEq] at he0
            subst he0
            exact ⟨rfl, rfl⟩
          | false =>
            simp only [fetchGo, he, hs, Bool.false_eq_true, if_false, List.get?_cons_zero,
              Option.some.injEq] at he0
            subst he0
            exact ⟨rfl, rfl⟩
      | exn =>
          simp only [fetchGo, he, List.get?_cons_zero, Option.some.injEq] at he0
          subst he0
          exact ⟨rfl, rfl⟩

theorem fetchGo_adj (env : ℕ → ScrapeOutcome) (sD hD : ℕ → ℚ) :
    ∀ (fuel a t k : ℕ) (e e' : AttemptLog),
      (fetchGo env sD hD a fuel t).logs.get? k = some e →
      (fetchGo env sD hD a fuel t).logs.get? (k + 1) = some e' →
      e'.timeoutUsed =
        (if e.kind = AttemptKind.hardFail then e.timeoutUsed * 3 / 2 else e.timeoutUsed) := by
  intro fuel
  induction fuel with
  | zero => intro a t k e e' hk _; simp [fetchGo] at hk
  | succ n ih =>
      intro a t k e e' hk hk1
      cases he : env a with
      | ok d =>
          cases hs : softBlock d with
          | true =>
            simp only [fetchGo, he, hs, if_true] at hk hk1
            cases k with
            | zero =>
                simp only [List.get?_cons_zero, Option.some.injEq] at hk
                subst hk
                simp only [List.get?_cons_succ] at hk1
                have := (fetchGo_head env sD hD n (a + 1) t e' hk1).1
                rw [this]
                rfl
            | succ m =>
                simp only [List.get?_cons_succ] at hk hk1
                exact ih (a + 1) t m e e' hk hk1
          | false =>
            simp only [fetchGo, he, hs, Bool.false_eq_true, if_false] at hk hk1
            cases k with
            | zero => simp at hk1
            | succ m => simp at hk
      | exn =>
          simp only [fetchGo, he] at hk hk1
          cases k with
          | zero =>
              simp only [List.get?_cons_zero, Option.some.injEq] at hk
              subst hk
              simp only [List.get?_cons_succ] at hk1
              have := (fetchGo_head env sD hD n (a + 1) (t * 3 / 2) e' hk1).1
              rw [this]
              rfl
          | succ m =>
              simp only [List.get?_cons_succ] at hk hk1
              exact ih (a + 1) (t * 3 / 2) m e e' hk hk1

theorem fetchGo_entry (env : ℕ → ScrapeOutcome) (sD hD : ℕ → ℚ) :
    ∀ (fuel a t : ℕ), ∀ e ∈ (fetchGo env sD hD a fuel t).logs,
      (e.kind = AttemptKind.softBlock → e.delayAfter = some (sD e.attempt)) ∧
      (e.kind = AttemptKind.hardFail →
        e.delayAfter = some ((RETRY_DELAY : ℚ) * (e.attempt : ℚ) + hD e.attempt)) ∧
      (e.kind = AttemptKind.success → e.delayAfter = none) := by
  intro fuel
  induction fuel with
  | zero => intro a t e he; simp [fetchGo] at he
  | succ n ih =>
      intro a t e hmem
      cases he : env a with
      | ok d =>
          cases hs : softBlock d with
          | true =>
              simp only [fetchGo, he, hs, if_true, List.mem_cons] at hmem
              rcases hmem with hmem | hmem
              · subst hmem
                refine ⟨fun _ => rfl, fun hk => ?_, fun hk => ?_⟩ <;> cases hk
              · exact ih (a + 1) t e hmem
          | false =>
              simp only [fetchGo, he, hs, Bool.false_eq_true, if_false,
                List.mem_singleton] at hmem
              subst hmem
              refine ⟨fun hk => ?_, fun hk => ?_, fun _ => rfl⟩ <;> cases hk
      | exn =>
          simp only [fetchGo, he, List.mem_cons] at hmem
          rcases hmem with hmem | hmem
          · subst hmem
            refine ⟨fun hk => ?_, fun _ => rfl, fun hk => ?_⟩ <;> cases hk
          · exact ih (a + 1) (t * 3 / 2) e hmem

theorem fetchGo_soft_terminal (env : ℕ → ScrapeOutcome) (sD hD : ℕ → ℚ) :
    ∀ (fuel a t k : ℕ) (e : AttemptLog),
      (fetchGo env sD hD a fuel t).logs.get? k = some e →
      e.kind = AttemptKind.softBlock →
      (fetchGo env sD hD a fuel t).logs.get? (k + 1) = none →
      (fetchGo env sD hD a fuel t).success = false := by
  intro fuel
  induction fuel with
  | zero => intro a t k e hk _ _; simp [fetchGo] at hk
  | succ n ih =>
      intro a t k e hk hkind hk1
      cases he : env a with
      | ok d =>
          cases hs : softBlock d with
          | true =>
              simp only [fetchGo, he, hs, if_true] at hk hk1 ⊢
              cases k with
              | zero =>
                  simp only [List.get?_cons_succ] at hk1
                  cases hr : (fetchGo env sD hD (a + 1) n t).logs with
                  | nil =>
                      rcases fetchGo_writes env sD hD n (a + 1) t with h | h
                      · exact h.2
                      · obtain ⟨h0, _⟩ := fetchGo_last_success env sD hD n (a + 1) t h.2
                        rw [hr] at h0
                        exact absurd h0 (by simp)
                  | cons x xs => rw [hr] at hk1; simp at hk1
              | succ m =>
                  simp only [List.get?_cons_succ] at hk hk1
                  exact ih (a + 1) t m e hk hkind hk1
          | false =>
              simp only [fetchGo, he, hs, Bool.false_eq_true, if_false] at hk
              cases k with
              | zero =>
                  simp only [List.get?_cons_zero, Option.some.injEq] at hk
                  subst hk
                  cases hkind
              | succ m => simp at hk
      | exn =>
          simp only [fetchGo, he] at hk hk1 ⊢
          cases k with
          | zero =>
              simp only [List.get?_cons_zero, Option.some.injEq] at hk
              subst hk
              cases hkind
          | succ m =>
              simp only [List.get?_cons_succ] at hk hk1
              exact ih (a + 1) (t * 3 / 2) m e hk hkind hk1

theorem fetchGo_even (env : ℕ → ScrapeOutcome) (sD hD : ℕ → ℚ) :
    ∀ (fuel a t : ℕ), (∀ j, j + 2 ≤ fuel → 2 ^ (j + 1) ∣ t) →
      ∀ (k : ℕ) (e e' : AttemptLog),
        (fetchGo env sD hD a fuel t).logs.get? k = some e →
        (fetchGo env sD hD a fuel t).logs.get? (k + 1) = some e' →
        2 ∣ e.timeoutUsed := by
  intro fuel
  induction fuel with
  | zero => intro a t _ k e e' hk _; simp [fetchGo] at hk
  | succ n ih =>
      intro a t hinv k e e' hk hk1
      have hinvn : ∀ j, j + 2 ≤ n → 2 ^ (j + 1) ∣ t := by
        intro j hj
        exact dvd_trans (pow_dvd_pow 2 (by omega)) (hinv (j + 1) (by omega))
      cases he : env a with
      | ok d =>
          cases hs : softBlock d with
          | true =>
              simp only [fetchGo, he, hs, if_true] at hk hk1
              cases k with
              | zero =>
                  simp only [List.get?_cons_zero, Option.some.injEq] at hk
                  subst hk
                  simp only [List.get?_cons_succ] at hk1
                  have hne : (fetchGo env sD hD (a + 1) n t).logs ≠ [] := by
                    intro hnil
                    rw [hnil] at hk1
                    simp at hk1
                  have hfuel : 1 ≤ n := by
                    rcases Nat.eq_zero_or_pos n with h | h
                    · subst h; simp [fetchGo] at hne
                    · exact h
                  have := hinv 0 (by omega)
                  simpa using this
              | succ m =>
                  simp only [List.get?_cons_succ] at hk hk1
                  exact ih (a + 1) t hinvn m e e' hk hk1
          | false =>
              simp only [fetchGo, he, hs, Bool.false_eq_true, if_false] at hk hk1
              cases k with
              | zero => simp at hk1
              | succ m => simp at hk
      | exn =>
          simp only [fetchGo, he] at hk hk1
          cases k with
          | zero =>
              simp only [List.get?_cons_zero, Option.some.injEq] at hk
              subst hk
              have hne : (fetchGo env sD hD (a + 1) n (t * 3 / 2)).logs ≠ [] := by
                intro hnil
                simp only [List.get?_cons_succ] at hk1
                rw [hnil] at hk1
                simp at hk1
              have hfuel : 1 ≤ n := by
                rcases Nat.eq_zero_or_pos n with h | h
                · subst h; simp [fetchGo] at hne
                · exact h
              have := hinv 0 (by omega)
              simpa using this
          | succ m =>
              simp only [List.get?_cons_succ] at hk hk1
              have hgrow : ∀ j, j + 2 ≤ n → 2 ^ (j + 1) ∣ t * 3 / 2 := by
                intro j hj
                obtain ⟨c, hc⟩ := hinv (j + 1) (by omega)
                subst hc
                have h2 : 2 ^ (j + 1 + 1) * c * 3 / 2 = 2 ^ (j + 1) * c * 3 := by
                  have h3 : 2 ^ (j + 1 + 1) * c * 3 = 2 * (2 ^ (j + 1) * c * 3) := by ring
                  rw [h3, Nat.mul_div_cancel_left _ (by norm_num : 0 < 2)]
                rw [h2]
                exact ⟨c * 3, by ring⟩
              exact ih (a + 1) (t * 3 / 2) hgrow m e e' hk hk1

theorem attempt_kinds_partition (l : List AttemptLog) :
    (l.filter (fun e => e.kind = AttemptKind.softBlock)).length +
    (l.filter (fun e => e.kind = AttemptKind.hardFail)).length +
    (l.filter (fun e => e.kind = AttemptKind.success)).length = l.length := by
  induction l with
  | nil => simp
  | cons x xs ih =>
      cases hx : x.kind <;> simp [List.filter_cons, hx] <;> omega

/-- C3: for every environment (scrape outcomes and random draws), the fetch
controller issues at most `MAX_RETRIES` scrape attempts, and its artifact
writes are all-or-nothing: either nothing is written or exactly the
markdown/HTML/JSON triple is; on terminal failure nothing is written, and the
full triple is written exactly when the controller reports success. -/
theorem fetch_bounded_atomic :
    ∀ (env : ℕ → ScrapeOutcome) (sD hD : ℕ → ℚ),
      (fetch_with_firecrawl env sD hD).logs.length ≤ MAX_RETRIES ∧
      ((fetch_with_firecrawl env sD hD).writes = [] ∨
       (fetch_with_firecrawl env sD hD).writes = [FileKind.md, FileKind.html, FileKind.json]) ∧
      ((fetch_with_firecrawl env sD hD).success = false →
        (fetch_with_firecrawl env sD hD).writes = []) ∧
      ((fetch_with_firecrawl env sD hD).success = true →
        (fetch_with_firecrawl env sD hD).writes = [FileKind.md, FileKind.html, FileKind.json]) := by
  intro env sD hD
  simp only [fetch_with_firecrawl]
  refine ⟨fetchGo_length env sD hD MAX_RETRIES 1 TIMEOUT, ?_, ?_, ?_⟩ <;>
    rcases fetchGo_writes env sD hD MAX_RETRIES 1 TIMEOUT with ⟨hw, hs⟩ | ⟨hw, hs⟩
  · exact Or.inl hw
  · exact Or.inr hw
  · intro _; exact hw
  · intro hfalse; rw [hs] at hfalse; cases hfalse
  · intro htrue; rw [hs] at htrue; cases htrue
  · intro _; exact hw

/-- Environment in which every scrape attempt raises. -/
def envAllFail : ℕ → ScrapeOutcome := fun _ => ScrapeOutcome.exn

/-- A constant draw oracle. -/
def zeroDraw : ℕ → ℚ := fun _ => 0

/-- C3 witness: under an all-failing environment the controller reports
failure and writes nothing. -/
theorem fetch_bounded_atomic_witness :
    (fetch_with_firecrawl envAllFail zeroDraw zeroDraw).writes = [] :=
  (fetch_bounded_atomic envAllFail zeroDraw zeroDraw).2.2.1 rfl

/-- C4: a soft-blocked attempt (one whose returned markup triggers the
anti-automation marker test) never carries success — the run can only succeed
from a later, success-kind attempt, and if the soft block is the final
attempt the whole fetch fails; no artifacts come from it (writes happen only
when the last attempt is a success); it sleeps exactly the uniform draw of
`random.uniform(10, 20)`, so under that range contract the delay lies in
[10, 20]; the following attempt reuses the same timeout (no growth); and
soft and hard failures consume the attempt budget identically — every logged
attempt, of any kind, counts exactly once against `MAX_RETRIES`. -/
theorem fetch_soft_block (env : ℕ → ScrapeOutcome) (sD hD : ℕ → ℚ) (k : ℕ)
    (e : AttemptLog)
    (hk : (fetch_with_firecrawl env sD hD).logs.get? k = some e)
    (hsoft : e.kind = AttemptKind.softBlock) :
    (∀ e', (fetch_with_firecrawl env sD hD).logs.get? (k + 1) = some e' →
       e'.timeoutUsed = e.timeoutUsed) ∧
    e.delayAfter = some (sD e.attempt) ∧
    ((∀ n, 10 ≤ sD n ∧ sD n ≤ 20) → ∀ d, e.delayAfter = some d → 10 ≤ d ∧ d ≤ 20) ∧
    ((fetch_with_firecrawl env sD hD).logs.get? (k + 1) = none →
       (fetch_with_firecrawl env sD hD).success = false) ∧
    ((fetch_with_firecrawl env sD hD).writes ≠ [] →
       ∃ hne : (fetch_with_firecrawl env sD hD).logs ≠ [],
         ((fetch_with_firecrawl env sD hD).logs.getLast hne).kind = AttemptKind.success) ∧
    ((fetch_with_firecrawl env sD hD).logs.filter
        (fun x => x.kind = AttemptKind.softBlock)).length +
      ((fetch_with_firecrawl env sD hD).logs.filter
        (fun x => x.kind = AttemptKind.hardFail)).length +
      ((fetch_with_firecrawl env sD hD).logs.filter
        (fun x => x.kind = AttemptKind.success)).length
      = (fetch_with_firecrawl env sD hD).logs.length := by
  have hdelay : e.delayAfter = some (sD e.attempt) :=
    (fetchGo_entry env sD hD MAX_RETRIES 1 TIMEOUT e (List.get?_mem hk)).1 hsoft
  refine ⟨?_, hdelay, ?_, ?_, ?_, attempt_kinds_partition _⟩
  · intro e' hk'
    have := fetchGo_adj env sD hD MAX_RETRIES 1 TIMEOUT k e e' hk hk'
    rw [this, if_neg]
    intro habs
    rw [hsoft] at habs
    cases habs
  · intro hB d hd
    rw [hdelay] at hd
    injection hd with hd
    exact hd ▸ hB e.attempt
  · exact fetchGo_soft_terminal env sD hD MAX_RETRIES 1 TIMEOUT k e hk hsoft
  · intro hw
    simp only [fetch_with_firecrawl] at hw ⊢
    rcases fetchGo_writes env sD hD MAX_RETRIES 1 TIMEOUT with ⟨hw0, _⟩ | ⟨_, hst⟩
    · exact absurd hw0 hw
    · obtain ⟨h0, hlast⟩ := fetchGo_last_success env sD hD MAX_RETRIES 1 TIMEOUT hst
      refine ⟨fun hnil => ?_, hlast⟩
      rw [hnil] at h0
      exact absurd h0 (by simp)

/-- Environment whose first attempt returns the anti-automation challenge
page and whose later attempts return a clean document. -/
def envSoftOnce : ℕ → ScrapeOutcome := fun n =>
  if n = 1 then ScrapeOutcome.ok ⟨none, some softBlockMarker, none⟩
  else ScrapeOutcome.ok ⟨none, some [], none⟩

/-- A draw oracle inside the soft-block range. -/
def midDraw : ℕ → ℚ := fun _ => 15

/-- C4 witness: with a concrete soft-blocked first attempt, every logged
attempt — soft blocks included — counts exactly once against the budget. -/
theorem fetch_soft_block_witness :
    ((fetch_with_firecrawl envSoftOnce midDraw midDraw).logs.filter
        (fun x => x.kind = AttemptKind.softBlock)).length +
      ((fetch_with_firecrawl envSoftOnce midDraw midDraw).logs.filter
        (fun x => x.kind = AttemptKind.hardFail)).length +
      ((fetch_with_firecrawl envSoftOnce midDraw midDraw).logs.filter
        (fun x => x.kind = AttemptKind.success)).length
      = (fetch_with_firecrawl envSoftOnce midDraw midDraw).logs.length :=
  (fetch_soft_block envSoftOnce midDraw midDraw 0
    ⟨1, TIMEOUT, AttemptKind.softBlock, some 15⟩ rfl rfl).2.2.2.2.2

/-- C5: the first attempt of every fetch uses the configured base timeout,
and whenever a hard-failed attempt is followed by another attempt, the
follow-up attempt's timeout is at least 1.5 times the hard-failed attempt's
timeout (stated integrally: 3·t ≤ 2·t'; with the base timeout 300000 the
growth `int(timeout * 1.5)` is exact for every attempt the bounded loop can
reach). -/
theorem fetch_timeout_growth (env : ℕ → ScrapeOutcome) (sD hD : ℕ → ℚ) (k : ℕ)
    (e e' : AttemptLog)
    (hk : (fetch_with_firecrawl env sD hD).logs.get? k = some e)
    (hk1 : (fetch_with_firecrawl env sD hD).logs.get? (k + 1) = some e')
    (hhard : e.kind = AttemptKind.hardFail) :
    3 * e.timeoutUsed ≤ 2 * e'.timeoutUsed ∧
    (∀ e0, (fetch_with_firecrawl env sD hD).logs.get? 0 = some e0 →
       e0.timeoutUsed = TIMEOUT) := by
  constructor
  · have hadj := fetchGo_adj env sD hD MAX_RETRIES 1 TIMEOUT k e e' hk hk1
    rw [if_pos hhard] at hadj
    have heven : 2 ∣ e.timeoutUsed := by
      refine fetchGo_even env sD hD MAX_RETRIES 1 TIMEOUT ?_ k e e' hk hk1
      intro j hj
      have hm : MAX_RETRIES = 3 := rfl
      rw [hm] at hj
      have hj01 : j = 0 ∨ j = 1 := by omega
      rcases hj01 with h | h <;> subst h <;> decide
    obtain ⟨c, hc⟩ := heven
    rw [hadj, hc]
    have h2 : 2 * c * 3 = 2 * (c * 3) := by ring
    rw [h2, Nat.mul_div_cancel_left _ (by norm_num : 0 < 2)]
    omega
  · intro e0 h0
    exact (fetchGo_head env sD hD MAX_RETRIES 1 TIMEOUT e0 h0).1

/-- C5 witness: with every attempt hard-failing, attempt 2's timeout
(`int(300000 * 1.5)`) is at least 1.5 times attempt 1's base timeout. -/
theorem fetch_timeout_growth_witness : 3 * TIMEOUT ≤ 2 * (TIMEOUT * 3 / 2) :=
  (fetch_timeout_growth envAllFail zeroDraw zeroDraw 0
    ⟨1, TIMEOUT, AttemptKind.hardFail,
      some ((RETRY_DELAY : ℚ) * ((1 : ℕ) : ℚ) + zeroDraw 1)⟩
    ⟨2, TIMEOUT * 3 / 2, AttemptKind.hardFail,
      some ((RETRY_DELAY : ℚ) * ((2 : ℕ) : ℚ) + zeroDraw 2)⟩
    rfl rfl rfl).1

theorem runPrompts_mem (w : CrawlWorld) :
    ∀ (ps : List String) (j i : ℕ), i < ps.length →
      RunEvent.promptStart (j + i) ∈ runPrompts w j ps := by
  intro ps
  induction ps with
  | nil => intro j i h; simp at h
  | cons p ps ih =>
      intro j i h
      cases i with
      | zero => simp [runPrompts]
      | succ m =>
          have hmem := ih (j + 1) m (by simpa using Nat.lt_of_succ_lt_succ h)
          have harr : j + (m + 1) = (j + 1) + m := by omega
          rw [harr]
          show RunEvent.promptStart (j + 1 + m) ∈
            RunEvent.promptStart j :: (promptEvents w j p ++ runPrompts w (j + 1) ps)
          exact List.mem_cons_of_mem _ (List.mem_append_right _ hmem)

/-- The world used for the C2 refutation and witness: a prompt source is
available, all network collaborators fail. -/
def wEx : CrawlWorld :=
  ⟨["vintage lamp"], fun _ => none, fun _ => none,
   fun _ _ _ => ScrapeOutcome.exn, fun _ _ _ => 0, fun _ _ _ => 0⟩

/-- C2 counterexample: a missing Firecrawl credential is also fatal — the
module-level guard of get_url_seo_geo.py raises `ValueError` on its
hardcoded-empty `FIRECRAWL_API_KEY` at import, so the script aborts even
though a prompt source is available, contradicting the claim that a missing
credential lets the run continue. -/
theorem crawl_missing_key_fatal_cx :
    scriptMain wEx = Except.error "❌ 请在环境变量中设置 FIRECRAWL_API_KEY" ∧
    wEx.prompts ≠ [] :=
  ⟨rfl, by simp [wEx]⟩

/-- C2 amended: two conditions are fatal, both arising before any network
activity: the module-level guard on the (hardcoded-empty) Firecrawl
credential, which raises at import, and a missing prompt source, on which
`run_crawling` returns with an empty event trace (in particular no network
call).  Every other fault — the missing OpenAI credential (GEO is skipped),
discovery errors (empty URL list, channel skipped), fetch failures and parse
failures — leaves the run running: every prompt's loop iteration appears in
the trace whatever the oracles do. -/
theorem crawl_fatality_amended (w : CrawlWorld) :
    moduleInit = Except.error "❌ 请在环境变量中设置 FIRECRAWL_API_KEY" ∧
    (w.prompts = [] → run_crawling w = []) ∧
    (∀ i, i < w.prompts.length → RunEvent.promptStart (i + 1) ∈ run_crawling w) := by
  refine ⟨rfl, ?_, ?_⟩
  · intro hp
    simp [run_crawling, hp]
  · intro i hi
    have hne : w.prompts.isEmpty = false := by
      cases hp : w.prompts with
      | nil => rw [hp] at hi; simp at hi
      | cons a as => simp [hp]
    simp only [run_crawling, hne, Bool.false_eq_true, if_false]
    have := runPrompts_mem w w.prompts 1 i hi
    rwa [Nat.add_comm] at this

/-- C2 witness: in the all-faults world with one prompt, the run's trace
still contains the first prompt iteration. -/
theorem crawl_fatality_witness :
    RunEvent.promptStart 1 ∈ run_crawling wEx :=
  (crawl_fatality_amended wEx).2.2 0 (by simp [wEx])

theorem extract_json_keys (qid ch : String) (rk : ℕ) (art : Option JVal)
    (r : Record) (h : extract_json qid ch rk art = .ok r) :
    keyOf r = (qid, ch, rk) := by
  cases art with
  | none =>
      simp only [extract_json, Except.ok.injEq] at h
      subst h
      rfl
  | some v =>
      cases v with
      | obj j =>
          cases hp : parse_price (jget j "price") with
          | error e => simp [extract_json, hp] at h
          | ok price =>
              cases ho : parse_price (jget j "originalPrice") with
              | error e => simp [extract_json, hp, ho] at h
              | ok original =>
                  simp only [extract_json, hp, ho, Except.ok.injEq] at h
                  subst h
                  rfl
      | null => simp [extract_json] at h
      | bool b => simp [extract_json] at h
      | num q => simp [extract_json] at h
      | str s => simp [extract_json] at h
      | arr xs => simp [extract_json] at h

theorem extract_md_keys (mdD : List Char → List (String × JVal)) (qid ch : String)
    (rk : ℕ) (art : Option (List Char)) :
    keyOf (extract_md mdD qid ch rk art) = (qid, ch, rk) := by
  cases art <;> rfl

theorem extract_html_keys (htmlD : List Char → Except Unit (List (String × JVal)))
    (qid ch : String) (rk : ℕ) (art : Option (List Char)) (r : Record)
    (h : extract_html htmlD qid ch rk art = .ok r) :
    keyOf r = (qid, ch, rk) := by
  cases art with
  | none =>
      simp only [extract_html, Except.ok.injEq] at h
      subst h
      rfl
  | some text =>
      cases hd : htmlD text with
      | error e => simp [extract_html, hd] at h
      | ok fs =>
          simp only [extract_html, hd, Except.ok.injEq] at h
          subst h
          rfl

theorem mapME_keys {α : Type} (f : α → Except Unit Record)
    (ekey : α → String × String × ℕ)
    (hf : ∀ x r, f x = .ok r → keyOf r = ekey x) :
    ∀ (l : List α) (l' : List Record), mapME f l = .ok l' →
      l'.map keyOf = l.map ekey := by
  intro l
  induction l with
  | nil =>
      intro l' h
      simp only [mapME, Except.ok.injEq] at h
      subst h
      simp
  | cons a as ih =>
      intro l' h
      cases hfa : f a with
      | error e => simp [mapME, hfa] at h
      | ok b =>
          cases hrec : mapME f as with
          | error e => simp [mapME, hfa, hrec] at h
          | ok bs =>
              simp only [mapME, hfa, hrec, Except.ok.injEq] at h
              subst h
              simp only [List.map_cons]
              rw [hf a b hfa, ih bs hrec]

theorem leftJoin_keyset (l r : List Record) :
    ((leftJoin l r).map keyOf).toFinset = (l.map keyOf).toFinset := by
  ext key
  simp only [List.mem_toFinset, List.mem_map]
  constructor
  · rintro ⟨x, hx, rfl⟩
    rw [leftJoin] at hx
    obtain ⟨lr, hlr, hx2⟩ := List.mem_flatMap.1 hx
    cases hflt : r.filter (fun rr => decide (keyOf rr = keyOf lr)) with
    | nil =>
        rw [hflt] at hx2
        simp only [List.mem_singleton] at hx2
        exact ⟨lr, hlr, (congrArg keyOf hx2).symm⟩
    | cons m ms =>
        rw [hflt] at hx2
        simp only [List.mem_map] at hx2
        obtain ⟨rr, _, hx3⟩ := hx2
        subst hx3
        exact ⟨lr, hlr, rfl⟩
  · rintro ⟨x, hx, rfl⟩
    cases hflt : r.filter (fun rr => decide (keyOf rr = keyOf x)) with
    | nil =>
        refine ⟨x, ?_, rfl⟩
        rw [leftJoin]
        refine List.mem_flatMap.2 ⟨x, hx, ?_⟩
        rw [hflt]
        simp
    | cons m ms =>
        refine ⟨⟨x.query_id, x.channel, x.rank, x.fields ++ m.fields⟩, ?_, rfl⟩
        rw [leftJoin]
        refine List.mem_flatMap.2 ⟨x, hx, ?_⟩
        rw [hflt]
        simp only [List.mem_map]
        exact ⟨m, List.mem_cons_self m ms, rfl⟩

/-- C6 amended: for every artifact-store directory state on which the
extraction run completes, the key set (`query_id`, `channel`, `rank`) of the
merged record set equals the key set of the master index exactly — no key
dropped, none added — including slug groups with only a subset of the three
formats on disk and records whose artifacts fail to parse.  The claim's
unconditional form fails because some directory states abort the run before
any merged record set exists: for example a price string such as `"1.2.3"`,
whose first digit/dot run makes the uncaught `float()` `ValueError` fire
inside `extract_json` (`merge_keyset_cx`), or a parseable non-object JSON
artifact, on which `j.get` raises an uncaught `AttributeError`
(the `.error` branch of `extract_json` for non-`obj` values). -/
theorem merge_keyset (mdD : List Char → List (String × JVal))
    (htmlD : List Char → Except Unit (List (String × JVal))) (st : DirState)
    (h : (run_phase1 mdD htmlD st).isOk = true) :
    keySetOfRun (run_phase1 mdD htmlD st) = indexKeySet (build_master_index st) := by
  by_cases hidx : (build_master_index st).isEmpty
  · have hempty : build_master_index st = [] := List.isEmpty_iff.1 hidx
    simp [run_phase1, hidx, keySetOfRun, indexKeySet, hempty]
  · cases hJ : mapME (fun e => extract_json e.query_id e.channel e.rank (readJson st e))
        (build_master_index st) with
    | error e => simp [run_phase1, hidx, hJ, Except.isOk, Except.toBool] at h
    | ok dfJson =>
        cases hH : mapME (fun e => extract_html htmlD e.query_id e.channel e.rank (readHtml st e))
            (build_master_index st) with
        | error e => simp [run_phase1, hidx, hJ, hH, Except.isOk, Except.toBool] at h
        | ok dfHtml =>
            have hrun : run_phase1 mdD htmlD st =
                .ok (some (leftJoin
                  (leftJoin dfJson
                    ((build_master_index st).map
                      (fun e => extract_md mdD e.query_id e.channel e.rank (readMd st e))))
                  dfHtml)) := by
              simp [run_phase1, hidx, hJ, hH]
            rw [hrun]
            simp only [keySetOfRun, indexKeySet]
            rw [leftJoin_keyset, leftJoin_keyset]
            rw [mapME_keys _ entryKey
              (fun x r hr => extract_json_keys x.query_id x.channel x.rank (readJson st x) r hr)
              (build_master_index st) dfJson hJ]

/-- Oracle with no markdown-derived fields. -/
def mdD0 : List Char → List (String × JVal) := fun _ => []

/-- Oracle whose HTML derivation always succeeds with no fields. -/
def htmlD0 : List Char → Except Unit (List (String × JVal)) := fun _ => .ok []

/-- A store whose single JSON artifact parses but carries
`price = "1.2.3"`, whose first digit/dot run makes `float()` raise. -/
def stBadPrice : DirState :=
  ⟨some [("q1", some [("a_full.json",
      ⟨some (.obj [("price", .str "1.2.3".toList)]), []⟩)])], none⟩

/-- C6 counterexample: on `stBadPrice` the master index is nonempty (one
entry) but `run_phase1` aborts with the uncaught `ValueError` from
`float("1.2.3")`, so no merged record set exists and the claimed key-set
equality cannot hold for every directory state. -/
theorem merge_keyset_cx :
    run_phase1 mdD0 htmlD0 stBadPrice = .error () ∧
    (build_master_index stBadPrice).length = 1 :=
  ⟨rfl, rfl⟩

/-- A store with a single slug group holding only an HTML file. -/
def stHtmlOnly : DirState :=
  ⟨some [("q1", some [("a.html", ⟨none, "x".toList⟩)])], none⟩

/-- C6 witness: on a concrete store whose only slug group has just an HTML
file, the run completes and the merged key set equals the index key set. -/
theorem merge_keyset_witness :
    keySetOfRun (run_phase1 mdD0 htmlD0 stHtmlOnly)
      = indexKeySet (build_master_index stHtmlOnly) :=
  merge_keyset mdD0 htmlD0 stHtmlOnly rfl
